import Mathlib

/-!
# Verification of `drogulus/net/messages.py`

A shallow embedding of the wire-message codec of the drogulus DHT:
the eight message variants (named tuples), `to_msgpack`, `from_msgpack`
and `make_message`, together with proofs of the spec's properties.

Modelling conventions:

* Python runtime values that can appear as message fields are the
  inductive `PyVal`.  Python distinguishes lists from tuples (and
  `from_msgpack` passes `use_list=False` to `msgpack.unpackb`, so every
  decoded sequence is a tuple); the embedding keeps both constructors.
* The msgpack wire is modelled at the level of its value AST `MPVal`:
  the byte serialisation used by the msgpack library is an external,
  injective mapping between the bytes that parse and `MPVal` values, so
  `msgpack.packb` becomes `pack : PyVal → MPVal` (lists and tuples both
  serialise to msgpack arrays) and `msgpack.unpackb raw` with
  `use_list=False` becomes an `Option MPVal` input (`none` = the bytes
  do not parse) followed by `unpack : MPVal → PyVal` (arrays become
  tuples).  Map keys are modelled as strings, which covers every key the
  codec reads or writes.
* Python exceptions raised by decoding become explicit failure values:
  the unpack error and the `KeyError`/`TypeError` on `data['message']`
  are `DecodeFailure.malformedEncoding`, the `ValueError` of the unknown
  tag branch is `DecodeFailure.unknownMessageType` (carrying the
  offending tag value), and the `ValueError` of `make_message` is
  `DecodeFailure.validationFailed` carrying the per-field error dict.
-/

/-- A Python value that can appear as a message field or inside one. -/
inductive PyVal : Type
  | str : String → PyVal
  | int : Int → PyVal
  | list : List PyVal → PyVal
  | tuple : List PyVal → PyVal
  | dict : List (String × PyVal) → PyVal

/-- A msgpack wire value (the AST the byte serialisation encodes). -/
inductive MPVal : Type
  | str : String → MPVal
  | int : Int → MPVal
  | arr : List MPVal → MPVal
  | map : List (String × MPVal) → MPVal

mutual

/-- Embeds `msgpack.packb` on a Python value: lists and tuples both become
msgpack arrays, dicts become msgpack maps. -/
def pack : PyVal → MPVal
  | .str s => .str s
  | .int n => .int n
  | .list l => .arr (packList l)
  | .tuple l => .arr (packList l)
  | .dict l => .map (packDict l)

def packList : List PyVal → List MPVal
  | [] => []
  | v :: rest => pack v :: packList rest

def packDict : List (String × PyVal) → List (String × MPVal)
  | [] => []
  | (k, v) :: rest => (k, pack v) :: packDict rest

end

mutual

/-- Embeds `msgpack.unpackb` (value level) with `use_list=False`: msgpack
arrays become Python tuples, maps become dicts. -/
def unpack : MPVal → PyVal
  | .str s => .str s
  | .int n => .int n
  | .arr l => .tuple (unpackList l)
  | .map l => .dict (unpackDict l)

def unpackList : List MPVal → List PyVal
  | [] => []
  | v :: rest => unpack v :: unpackList rest

def unpackDict : List (String × MPVal) → List (String × PyVal)
  | [] => []
  | (k, v) :: rest => (k, unpack v) :: unpackDict rest

end

mutual

/-- Holds (`true`) iff the value contains no Python `list` anywhere (all its
sequences are tuples) — i.e. it is in the canonical form `unpack`
produces. -/
def noLists : PyVal → Bool
  | .str _ => true
  | .int _ => true
  | .list _ => false
  | .tuple l => noListsList l
  | .dict l => noListsDict l

def noListsList : List PyVal → Bool
  | [] => true
  | v :: rest => noLists v && noListsList rest

def noListsDict : List (String × PyVal) → Bool
  | [] => true
  | (_, v) :: rest => noLists v && noListsDict rest

end

/-- Python dict lookup `d[k]` / `k in d`, on an association list (first
binding wins). -/
def lookupDict {α : Type} (k : String) : List (String × α) → Option α
  | [] => none
  | (k', v) :: rest => if k' = k then some v else lookupDict k rest

/-- Python dict update `d[k] = v`: replace the existing binding in
place, or append a new one (dicts preserve insertion order). -/
def dictSet {α : Type} : List (String × α) → String → α → List (String × α)
  | [], k, v => [(k, v)]
  | (k', v') :: rest, k, v =>
      if k' = k then (k, v) :: rest else (k', v') :: dictSet rest k v

/-- The per-field failure kinds recorded by `make_message`
(`'Missing field.'` / `'Invalid value.'`). -/
inductive FieldError : Type
  | missingField : FieldError
  | invalidValue : FieldError
  deriving DecidableEq

/-- The decode failure taxonomy: the unpack/`KeyError`/`TypeError`
exceptions, the unknown-tag `ValueError`, and the validation
`ValueError` with its per-field error dict. -/
inductive DecodeFailure : Type
  | malformedEncoding : DecodeFailure
  | unknownMessageType : PyVal → DecodeFailure
  | validationFailed : List (String × FieldError) → DecodeFailure

/-- The eight message variants (named tuples in the source), with their
fields in declared order. -/
inductive Message : Type
  | error (uuid node code title details version : PyVal)
  | ping (uuid node version : PyVal)
  | pong (uuid node version : PyVal)
  | store (uuid node key value timestamp expires public_key name meta sig version : PyVal)
  | findnode (uuid node key version : PyVal)
  | nodes (uuid node nodes version : PyVal)
  | findvalue (uuid node key version : PyVal)
  | value (uuid node key value timestamp expires public_key name meta sig version : PyVal)

/-- Embeds `message.__class__.__name__`. -/
def Message.className : Message → String
  | .error .. => "Error"
  | .ping .. => "Ping"
  | .pong .. => "Pong"
  | .store .. => "Store"
  | .findnode .. => "FindNode"
  | .nodes .. => "Nodes"
  | .findvalue .. => "FindValue"
  | .value .. => "Value"

/-- Embeds `message._asdict()`: the ordered field-name → field-value dict of
the named tuple. -/
def Message._asdict : Message → List (String × PyVal)
  | .error u n c t d v =>
      [("uuid", u), ("node", n), ("code", c), ("title", t), ("details", d), ("version", v)]
  | .ping u n v => [("uuid", u), ("node", n), ("version", v)]
  | .pong u n v => [("uuid", u), ("node", n), ("version", v)]
  | .store u n k val ts ex pk nm mt sg v =>
      [("uuid", u), ("node", n), ("key", k), ("value", val), ("timestamp", ts),
       ("expires", ex), ("public_key", pk), ("name", nm), ("meta", mt), ("sig", sg),
       ("version", v)]
  | .findnode u n k v => [("uuid", u), ("node", n), ("key", k), ("version", v)]
  | .nodes u n ns v => [("uuid", u), ("node", n), ("nodes", ns), ("version", v)]
  | .findvalue u n k v => [("uuid", u), ("node", n), ("key", k), ("version", v)]
  | .value u n k val ts ex pk nm mt sg v =>
      [("uuid", u), ("node", n), ("key", k), ("value", val), ("timestamp", ts),
       ("expires", ex), ("public_key", pk), ("name", nm), ("meta", mt), ("sig", sg),
       ("version", v)]

/-- A message class as `make_message` sees it: its `_fields` tuple and
its constructor `klass(*args)` (`none` models the `TypeError` a wrong
argument count would raise — unreachable from `make_message`). -/
structure Klass : Type where
  fields : List String
  ctor : List PyVal → Option Message

def errorKlass : Klass :=
  ⟨["uuid", "node", "code", "title", "details", "version"],
   fun args => match args with
     | [u, n, c, t, d, v] => some (.error u n c t d v)
     | _ => none⟩

def pingKlass : Klass :=
  ⟨["uuid", "node", "version"],
   fun args => match args with
     | [u, n, v] => some (.ping u n v)
     | _ => none⟩

def pongKlass : Klass :=
  ⟨["uuid", "node", "version"],
   fun args => match args with
     | [u, n, v] => some (.pong u n v)
     | _ => none⟩

def storeKlass : Klass :=
  ⟨["uuid", "node", "key", "value", "timestamp", "expires", "public_key", "name",
    "meta", "sig", "version"],
   fun args => match args with
     | [u, n, k, val, ts, ex, pk, nm, mt, sg, v] =>
         some (.store u n k val ts ex pk nm mt sg v)
     | _ => none⟩

def findNodeKlass : Klass :=
  ⟨["uuid", "node", "key", "version"],
   fun args => match args with
     | [u, n, k, v] => some (.findnode u n k v)
     | _ => none⟩

def nodesKlass : Klass :=
  ⟨["uuid", "node", "nodes", "version"],
   fun args => match args with
     | [u, n, ns, v] => some (.nodes u n ns v)
     | _ => none⟩

def findValueKlass : Klass :=
  ⟨["uuid", "node", "key", "version"],
   fun args => match args with
     | [u, n, k, v] => some (.findvalue u n k v)
     | _ => none⟩

def valueKlass : Klass :=
  ⟨["uuid", "node", "key", "value", "timestamp", "expires", "public_key", "name",
    "meta", "sig", "version"],
   fun args => match args with
     | [u, n, k, val, ts, ex, pk, nm, mt, sg, v] =>
         some (.value u n k val ts ex pk nm mt sg v)
     | _ => none⟩

/-- non-empty string/byte sequence. -/
def isNonEmptyStr : PyVal → Bool
  | .str s => s ≠ ""
  | _ => false

/-- byte sequence of SHA-512 width (64 bytes). -/
def isBytes64 : PyVal → Bool
  | .str s => s.length = 64
  | _ => false

def isInt : PyVal → Bool
  | .int _ => true
  | _ => false

def isNonNegInt : PyVal → Bool
  | .int n => 0 ≤ n
  | _ => false

def isStr : PyVal → Bool
  | .str _ => true
  | _ => false

/-- a string → string mapping. -/
def isStrDict : PyVal → Bool
  | .dict l => l.all fun p => isStr p.2
  | _ => false

/-- a 2-element sequence of strings. -/
def isStrPair : PyVal → Bool
  | .list [.str _, .str _] => true
  | .tuple [.str _, .str _] => true
  | _ => false

/-- a sequence of 2-element string pairs. -/
def isMetaSeq : PyVal → Bool
  | .list l => l.all isStrPair
  | .tuple l => l.all isStrPair
  | _ => false

/-- any sequence (entries treated opaquely at this layer). -/
def isSeq : PyVal → Bool
  | .list _ => true
  | .tuple _ => true
  | _ => false

/-- a protocol version string the receiver recognizes. -/
def isRecognizedVersion : PyVal → Bool
  | .str "1.0" => true
  | _ => false

/-- Modelled from the spec: the `VALIDATORS` registry imported from the
`validators` module is not part of this slice.  Per the spec it is a
read-only table from field name to a total predicate over raw decoded
values (wrong type ⇒ `false`, never an exception), checking primitive
type, fixed length for identifiers/hashes (a SHA-512-width hash is 64
bytes), sign rules for timestamps, and structural shape for composite
fields; the spec's concrete scenario fixes that `uuid: "abc123"`, a
64-byte `node` and `version: "1.0"` are accepted and an 8-byte `node`
is rejected. -/
def VALIDATORS : String → PyVal → Bool
  | "uuid", v => isNonEmptyStr v
  | "node", v => isBytes64 v
  | "version", v => isRecognizedVersion v
  | "code", v => isInt v
  | "title", v => isNonEmptyStr v
  | "details", v => isStrDict v
  | "key", v => isBytes64 v
  | "value", _ => true
  | "timestamp", v => isNonNegInt v
  | "expires", v => isInt v
  | "public_key", v => isNonEmptyStr v
  | "name", v => isNonEmptyStr v
  | "meta", v => isMetaSeq v
  | "sig", v => isNonEmptyStr v
  | "nodes", v => isSeq v
  | _, _ => false

/-- The validation loop of `make_message`: walk the class's field
sequence, collecting the argument list and the per-field error dict
(`'Missing field.'` when the field is absent from `data`,
`'Invalid value.'` when its validator rejects the value). -/
def make_args : List String → List (String × PyVal) →
    List PyVal × List (String × FieldError)
  | [], _ => ([], [])
  | f :: rest, data =>
      let r := make_args rest data
      match lookupDict f data with
      | none => (r.1, (f, .missingField) :: r.2)
      | some v =>
          if VALIDATORS f v then (v :: r.1, r.2)
          else (r.1, (f, .invalidValue) :: r.2)

/-- Embeds `make_message(klass, data)`: validate every field, raising
`ValueError(2, ERRORS[2], errors)` (here `.validationFailed`) when any
error was recorded, otherwise `klass(*args)`. -/
def make_message (klass : Klass) (data : List (String × PyVal)) :
    Except DecodeFailure Message :=
  let r := make_args klass.fields data
  if r.2 = [] then
    match klass.ctor r.1 with
    | some m => .ok m
    | none => .error .malformedEncoding
  else
    .error (.validationFailed r.2)

/-- Python `str.lower()` (ASCII case mapping, which covers the class
names it is applied to). -/
def pyLower (s : String) : String :=
  String.mk (s.data.map fun c => if c.isUpper then Char.ofNat (c.toNat + 32) else c)

/-- Embeds `to_msgpack(message)`: dump `message._asdict()`, add the
`'message'` entry holding the lower-cased class name, and pack. -/
def to_msgpack (message : Message) : MPVal :=
  let name := pyLower message.className
  let data := dictSet message._asdict "message" (.str name)
  pack (.dict data)

/-- Embeds `from_msgpack(raw)`: unpack (`none` = the bytes do not parse, a
non-map top value makes `data['message']` fail), read the `'message'`
tag and dispatch through the `if`/`elif` chain to `make_message`. -/
def from_msgpack (raw : Option MPVal) : Except DecodeFailure Message :=
  match raw with
  | none => .error .malformedEncoding
  | some w =>
      match unpack w with
      | .dict data =>
          match lookupDict "message" data with
          | none => .error .malformedEncoding
          | some message =>
              match message with
              | .str s =>
                  if s = "error" then make_message errorKlass data
                  else if s = "ping" then make_message pingKlass data
                  else if s = "pong" then make_message pongKlass data
                  else if s = "store" then make_message storeKlass data
                  else if s = "findnode" then make_message findNodeKlass data
                  else if s = "nodes" then make_message nodesKlass data
                  else if s = "findvalue" then make_message findValueKlass data
                  else if s = "value" then make_message valueKlass data
                  else .error (.unknownMessageType (.str s))
              | v => .error (.unknownMessageType v)
      | _ => .error .malformedEncoding

/-- Every field value of the message passes its registered validator
(the claims' notion of a syntactically valid message). -/
def allFieldsValid (m : Message) : Bool :=
  m._asdict.all fun p => VALIDATORS p.1 p.2

/-- Every field value is in decoded canonical form (contains no Python
list — sequences are tuples, as `from_msgpack` produces). -/
def fieldsNoLists (m : Message) : Bool :=
  m._asdict.all fun p => noLists p.2

/-- A 64-byte node/key identifier used in concrete scenarios. -/
def node64 : String := String.mk (List.replicate 64 'a')

/-- An 8-byte (too short) identifier. -/
def node8 : String := String.mk (List.replicate 8 'a')

/-- A message holding a Python `list` field value, as a sender may
construct (the `nodes` docstring calls the field "a list of nodes"). -/
def listNodesMsg : Message :=
  .nodes (.str "abc123") (.str node64) (.list []) (.str "1.0")

/-! ## Helper lemmas -/

theorem packList_eq_map : ∀ l : List PyVal, packList l = l.map pack
  | [] => rfl
  | v :: rest => by simp [packList, packList_eq_map rest]

theorem packDict_eq_map : ∀ l : List (String × PyVal),
    packDict l = l.map fun p => (p.1, pack p.2)
  | [] => rfl
  | (k, v) :: rest => by simp [packDict, packDict_eq_map rest]

theorem unpackList_eq_map : ∀ l : List MPVal, unpackList l = l.map unpack
  | [] => rfl
  | v :: rest => by simp [unpackList, unpackList_eq_map rest]

theorem unpackDict_eq_map : ∀ l : List (String × MPVal),
    unpackDict l = l.map fun p => (p.1, unpack p.2)
  | [] => rfl
  | (k, v) :: rest => by simp [unpackDict, unpackDict_eq_map rest]

mutual

theorem unpack_pack : ∀ v : PyVal, noLists v = true → unpack (pack v) = v
  | .str _, _ => rfl
  | .int _, _ => rfl
  | .list _, h => by simp [noLists] at h
  | .tuple l, h => by
      have hl : noListsList l = true := h
      simp [pack, unpack, unpack_packList l hl]
  | .dict l, h => by
      have hl : noListsDict l = true := h
      simp [pack, unpack, unpack_packDict l hl]

theorem unpack_packList : ∀ l : List PyVal,
    noListsList l = true → unpackList (packList l) = l
  | [], _ => rfl
  | v :: rest, h => by
      simp only [noListsList, Bool.and_eq_true] at h
      simp [packList, unpackList, unpack_pack v h.1, unpack_packList rest h.2]

theorem unpack_packDict : ∀ l : List (String × PyVal),
    noListsDict l = true → unpackDict (packDict l) = l
  | [], _ => rfl
  | (k, v) :: rest, h => by
      simp only [noListsDict, Bool.and_eq_true] at h
      simp [packDict, unpackDict, unpack_pack v h.1, unpack_packDict rest h.2]

end

theorem lookupDict_map {α β : Type} (f : α → β) (k : String) :
    ∀ l : List (String × α),
      lookupDict k (l.map fun p => (p.1, f p.2)) = (lookupDict k l).map f
  | [] => rfl
  | (k', v) :: rest => by
      by_cases h : k' = k <;> simp [lookupDict, h, lookupDict_map f k rest]

/-- The error dict of `make_message`'s loop: one entry per problematic
field, in the class's field order. -/
theorem make_args_snd (fields : List String) (data : List (String × PyVal)) :
    (make_args fields data).2 = fields.filterMap fun f =>
      match lookupDict f data with
      | none => some (f, FieldError.missingField)
      | some v =>
          if VALIDATORS f v then none else some (f, FieldError.invalidValue) := by
  induction fields with
  | nil => rfl
  | cons f rest ih =>
      simp only [make_args, List.filterMap_cons]
      cases hfd : lookupDict f data with
      | none => simp [hfd, ih]
      | some v =>
          by_cases hv : VALIDATORS f v = true
          · simp [hfd, hv, ih]
          · simp [hfd, if_neg hv, ih]

/-- When the loop records no error, the staged argument list is exactly
the looked-up field values in field order, and every field was present
and validated. -/
theorem make_args_fst_of_errs_nil :
    ∀ fields : List String, ∀ data : List (String × PyVal),
      (make_args fields data).2 = [] →
      (make_args fields data).1 = (fields.filterMap fun f => lookupDict f data) ∧
      ∀ f ∈ fields, ∃ v, lookupDict f data = some v ∧ VALIDATORS f v = true
  | [], _, _ => ⟨rfl, by simp⟩
  | f :: rest, data, h => by
      simp only [make_args] at h ⊢
      cases hfd : lookupDict f data with
      | none => simp [hfd] at h
      | some v =>
          by_cases hv : VALIDATORS f v = true
          · simp only [hfd, hv, if_pos] at h ⊢
            obtain ⟨ha, hall⟩ := make_args_fst_of_errs_nil rest data h
            refine ⟨by simp [List.filterMap_cons, hfd, ha], ?_⟩
            intro g hg
            rcases List.mem_cons.mp hg with rfl | hg
            · exact ⟨v, hfd, hv⟩
            · exact hall g hg
          · simp [hfd, if_neg hv] at h

/-- The loop of `make_args` reads `data` only at the class's own field names. -/
theorem make_args_congr :
    ∀ fields : List String, ∀ data data' : List (String × PyVal),
      (∀ f ∈ fields, lookupDict f data = lookupDict f data') →
      make_args fields data = make_args fields data'
  | [], _, _, _ => rfl
  | f :: rest, data, data', h => by
      have hrest := make_args_congr rest data data' fun g hg => h g (List.mem_cons_of_mem f hg)
      simp only [make_args, hrest, h f (List.mem_cons_self f rest)]

theorem lowerError : pyLower "Error" = "error" := rfl

theorem lowerPing : pyLower "Ping" = "ping" := rfl

theorem lowerPong : pyLower "Pong" = "pong" := rfl

theorem lowerStore : pyLower "Store" = "store" := rfl

theorem lowerFindNode : pyLower "FindNode" = "findnode" := rfl

theorem lowerNodes : pyLower "Nodes" = "nodes" := rfl

theorem lowerFindValue : pyLower "FindValue" = "findvalue" := rfl

theorem lowerValue : pyLower "Value" = "value" := rfl

/-- C1 (amended) — Round-trip law for canonical values: for every
message whose every field value passes its registered validator and is
in decoded canonical form (contains no Python list — sequences are
tuples, as `from_msgpack` itself produces), decoding the encoding
returns the message unchanged. -/
theorem from_msgpack_to_msgpack (m : Message)
    (hval : allFieldsValid m = true) (hcan : fieldsNoLists m = true) :
    from_msgpack (some (to_msgpack m)) = Except.ok m := by
  cases m with
  | error u n c t d v =>
      simp only [allFieldsValid, fieldsNoLists, Message._asdict, List.all_cons,
        List.all_nil, Bool.and_eq_true, Bool.and_true] at hval hcan
      obtain ⟨h1, h2, h3, h4, h5, h6⟩ := hval
      obtain ⟨c1, c2, c3, c4, c5, c6⟩ := hcan
      simp [to_msgpack, from_msgpack, Message._asdict, Message.className, lowerError,
        dictSet, pack, packDict, unpack, unpackDict, lookupDict, make_message,
        make_args, errorKlass, unpack_pack u c1, unpack_pack n c2, unpack_pack c c3,
        unpack_pack t c4, unpack_pack d c5, unpack_pack v c6, h1, h2, h3, h4, h5, h6]
  | ping u n v =>
      simp only [allFieldsValid, fieldsNoLists, Message._asdict, List.all_cons,
        List.all_nil, Bool.and_eq_true, Bool.and_true] at hval hcan
      obtain ⟨h1, h2, h3⟩ := hval
      obtain ⟨c1, c2, c3⟩ := hcan
      simp [to_msgpack, from_msgpack, Message._asdict, Message.className, lowerPing,
        dictSet, pack, packDict, unpack, unpackDict, lookupDict, make_message,
        make_args, pingKlass, unpack_pack u c1, unpack_pack n c2, unpack_pack v c3,
        h1, h2, h3]
  | pong u n v =>
      simp only [allFieldsValid, fieldsNoLists, Message._asdict, List.all_cons,
        List.all_nil, Bool.and_eq_true, Bool.and_true] at hval hcan
      obtain ⟨h1, h2, h3⟩ := hval
      obtain ⟨c1, c2, c3⟩ := hcan
      simp [to_msgpack, from_msgpack, Message._asdict, Message.className, lowerPong,
        dictSet, pack, packDict, unpack, unpackDict, lookupDict, make_message,
        make_args, pongKlass, unpack_pack u c1, unpack_pack n c2, unpack_pack v c3,
        h1, h2, h3]
  | store u n k val ts ex pk nm mt sg v =>
      simp only [allFieldsValid, fieldsNoLists, Message._asdict, List.all_cons,
        List.all_nil, Bool.and_eq_true, Bool.and_true] at hval hcan
      obtain ⟨h1, h2, h3, h4, h5, h6, h7, h8, h9, h10, h11⟩ := hval
      obtain ⟨c1, c2, c3, c4, c5, c6, c7, c8, c9, c10, c11⟩ := hcan
      simp [to_msgpack, from_msgpack, Message._asdict, Message.className, lowerStore,
        dictSet, pack, packDict, unpack, unpackDict, lookupDict, make_message,
        make_args, storeKlass, unpack_pack u c1, unpack_pack n c2, unpack_pack k c3,
        unpack_pack val c4, unpack_pack ts c5, unpack_pack ex c6, unpack_pack pk c7,
        unpack_pack nm c8, unpack_pack mt c9, unpack_pack sg c10, unpack_pack v c11,
        h1, h2, h3, h4, h5, h6, h7, h8, h9, h10, h11]
  | findnode u n k v =>
      simp only [allFieldsValid, fieldsNoLists, Message._asdict, List.all_cons,
        List.all_nil, Bool.and_eq_true, Bool.and_true] at hval hcan
      obtain ⟨h1, h2, h3, h4⟩ := hval
      obtain ⟨c1, c2, c3, c4⟩ := hcan
      simp [to_msgpack, from_msgpack, Message._asdict, Message.className,
        lowerFindNode, dictSet, pack, packDict, unpack, unpackDict, lookupDict,
        make_message, make_args, findNodeKlass, unpack_pack u c1, unpack_pack n c2,
        unpack_pack k c3, unpack_pack v c4, h1, h2, h3, h4]
  | nodes u n ns v =>
      simp only [allFieldsValid, fieldsNoLists, Message._asdict, List.all_cons,
        List.all_nil, Bool.and_eq_true, Bool.and_true] at hval hcan
      obtain ⟨h1, h2, h3, h4⟩ := hval
      obtain ⟨c1, c2, c3, c4⟩ := hcan
      simp [to_msgpack, from_msgpack, Message._asdict, Message.className, lowerNodes,
        dictSet, pack, packDict, unpack, unpackDict, lookupDict, make_message,
        make_args, nodesKlass, unpack_pack u c1, unpack_pack n c2, unpack_pack ns c3,
        unpack_pack v c4, h1, h2, h3, h4]
  | findvalue u n k v =>
      simp only [allFieldsValid, fieldsNoLists, Message._asdict, List.all_cons,
        List.all_nil, Bool.and_eq_true, Bool.and_true] at hval hcan
      obtain ⟨h1, h2, h3, h4⟩ := hval
      obtain ⟨c1, c2, c3, c4⟩ := hcan
      simp [to_msgpack, from_msgpack, Message._asdict, Message.className,
        lowerFindValue, dictSet, pack, packDict, unpack, unpackDict, lookupDict,
        make_message, make_args, findValueKlass, unpack_pack u c1, unpack_pack n c2,
        unpack_pack k c3, unpack_pack v c4, h1, h2, h3, h4]
  | value u n k val ts ex pk nm mt sg v =>
      simp only [allFieldsValid, fieldsNoLists, Message._asdict, List.all_cons,
        List.all_nil, Bool.and_eq_true, Bool.and_true] at hval hcan
      obtain ⟨h1, h2, h3, h4, h5, h6, h7, h8, h9, h10, h11⟩ := hval
      obtain ⟨c1, c2, c3, c4, c5, c6, c7, c8, c9, c10, c11⟩ := hcan
      simp [to_msgpack, from_msgpack, Message._asdict, Message.className, lowerValue,
        dictSet, pack, packDict, unpack, unpackDict, lookupDict, make_message,
        make_args, valueKlass, unpack_pack u c1, unpack_pack n c2, unpack_pack k c3,
        unpack_pack val c4, unpack_pack ts c5, unpack_pack ex c6, unpack_pack pk c7,
        unpack_pack nm c8, unpack_pack mt c9, unpack_pack sg c10, unpack_pack v c11,
        h1, h2, h3, h4, h5, h6, h7, h8, h9, h10, h11]

/-- C1 (witness) — the amended round-trip law at a concrete ping. -/
theorem from_msgpack_to_msgpack_witness :
    allFieldsValid (.ping (.str "abc123") (.str node64) (.str "1.0")) = true ∧
    fieldsNoLists (.ping (.str "abc123") (.str node64) (.str "1.0")) = true ∧
    from_msgpack (some (to_msgpack (.ping (.str "abc123") (.str node64) (.str "1.0")))) =
      Except.ok (.ping (.str "abc123") (.str node64) (.str "1.0")) :=
  ⟨rfl, rfl, from_msgpack_to_msgpack _ rfl rfl⟩

/-- C1 (counterexample) — the round-trip law as stated fails: a `Nodes`
message whose `nodes` field is a Python list passes every registered
validator, but `msgpack.unpackb(..., use_list=False)` returns the
sequence as a tuple, so the decoded value is not equal to the original
message. -/
theorem roundtrip_fails_on_list_field :
    allFieldsValid listNodesMsg = true ∧
    fieldsNoLists listNodesMsg = false ∧
    from_msgpack (some (to_msgpack listNodesMsg)) ≠ Except.ok listNodesMsg := by
  refine ⟨rfl, rfl, ?_⟩
  intro h
  have hst : from_msgpack (some (to_msgpack listNodesMsg)) =
      Except.ok (.nodes (.str "abc123") (.str node64) (.tuple []) (.str "1.0")) := rfl
  rw [hst] at h
  simp only [listNodesMsg, Except.ok.injEq, Message.nodes.injEq] at h
  exact absurd h.2.2.1 (by simp)

/-- C2 — Aggregate validation: `make_message` records one error per
problematic field, walking the class's whole field sequence (the error
dict is the field sequence filtered to its missing/invalid entries);
in particular a ping input missing `uuid` and `node` and carrying a
wrong-typed `version` fails with exactly three field errors. -/
theorem aggregate_validation :
    (∀ (fields : List String) (data : List (String × PyVal)),
      (make_args fields data).2 = fields.filterMap fun f =>
        match lookupDict f data with
        | none => some (f, FieldError.missingField)
        | some v =>
            if VALIDATORS f v then none else some (f, FieldError.invalidValue)) ∧
    from_msgpack (some (.map [("message", .str "ping"), ("version", .int 42)])) =
      .error (.validationFailed
        [("uuid", .missingField), ("node", .missingField),
         ("version", .invalidValue)]) :=
  ⟨make_args_snd, rfl⟩

/-- C3 — Closed tag set: decoding any map whose `message` entry is a
string outside the eight known tags fails with `UnknownMessageType`
carrying the offending tag. -/
theorem unknown_tag_rejected (l : List (String × MPVal)) (s : String)
    (hmsg : lookupDict "message" l = some (.str s))
    (hs : s ∉ ["error", "ping", "pong", "store", "findnode", "nodes",
               "findvalue", "value"]) :
    from_msgpack (some (.map l)) = .error (.unknownMessageType (.str s)) := by
  simp only [List.mem_cons, List.not_mem_nil, or_false, not_or] at hs
  obtain ⟨n1, n2, n3, n4, n5, n6, n7, n8⟩ := hs
  simp [from_msgpack, unpack, unpackDict_eq_map, lookupDict_map, hmsg,
    n1, n2, n3, n4, n5, n6, n7, n8]

/-- C3 (witness) — the closed tag set theorem at the tag `bogus`. -/
theorem unknown_tag_rejected_witness :
    from_msgpack (some (.map [("message", MPVal.str "bogus")])) =
      .error (.unknownMessageType (.str "bogus")) :=
  unknown_tag_rejected _ "bogus" rfl (by decide)

/-- C4 — MalformedEncoding: bytes that do not parse, a parsed top
value that is not a map, and a parsed map without a `message` entry
all fail with `MalformedEncoding` and nothing else. -/
theorem malformed_encoding :
    from_msgpack none = .error .malformedEncoding ∧
    (∀ w : MPVal, (∀ l, w ≠ .map l) →
      from_msgpack (some w) = .error .malformedEncoding) ∧
    (∀ l : List (String × MPVal), lookupDict "message" l = none →
      from_msgpack (some (.map l)) = .error .malformedEncoding) := by
  refine ⟨rfl, ?_, ?_⟩
  · intro w hw
    match w with
    | .str s => rfl
    | .int n => rfl
    | .arr l => rfl
    | .map l => exact absurd rfl (hw l)
  · intro l hl
    simp [from_msgpack, unpack, unpackDict_eq_map, lookupDict_map, hl]

/-- C4 (witness) — malformed inputs at concrete values: unparseable
bytes, a non-map top value, and a map missing the `message` entry. -/
theorem malformed_encoding_witness :
    from_msgpack none = .error .malformedEncoding ∧
    from_msgpack (some (.int 7)) = .error .malformedEncoding ∧
    from_msgpack (some (.map [("uuid", MPVal.str "abc123")])) =
      .error .malformedEncoding :=
  ⟨malformed_encoding.1,
   malformed_encoding.2.1 (.int 7) (fun _ h => MPVal.noConfusion h),
   malformed_encoding.2.2 _ rfl⟩

/-- C5 (counterexample) — the closed field set claim as stated fails:
a ping input carrying the entry `extra` beyond the declared fields
(plus `message`) is decoded to a `Ping` value instead of failing
validation, because `make_message` iterates only `klass._fields` and
never checks `data` for unexpected keys. -/
theorem extra_field_accepted :
    from_msgpack (some (.map [("message", .str "ping"), ("uuid", .str "abc123"),
      ("node", .str node64), ("version", .str "1.0"), ("extra", .int 0)])) =
      Except.ok (.ping (.str "abc123") (.str node64) (.str "1.0")) := rfl

/-- C5 (amended) — omitting any declared field fails validation with a
`MissingField` entry for it, while entries beyond the declared fields
are ignored: `make_message` reads the input only at the class's own
field names. -/
theorem closed_field_set_amended :
    (∀ (klass : Klass) (data : List (String × PyVal)) (f : String),
        f ∈ klass.fields → lookupDict f data = none →
        ∃ errs, make_message klass data = .error (.validationFailed errs) ∧
          (f, FieldError.missingField) ∈ errs) ∧
    (∀ (klass : Klass) (data data' : List (String × PyVal)),
        (∀ f ∈ klass.fields, lookupDict f data = lookupDict f data') →
        make_message klass data = make_message klass data') := by
  constructor
  · intro klass data f hf hnone
    have hmem : (f, FieldError.missingField) ∈ (make_args klass.fields data).2 := by
      rw [make_args_snd]
      refine List.mem_filterMap.mpr ⟨f, hf, ?_⟩
      rw [hnone]
    have hne : (make_args klass.fields data).2 ≠ [] := by
      intro h0
      rw [h0] at hmem
      exact List.not_mem_nil _ hmem
    exact ⟨(make_args klass.fields data).2,
      by simp only [make_message, if_neg hne], hmem⟩
  · intro klass data data' h
    simp only [make_message, make_args_congr klass.fields data data' h]

/-- C5 (witness) — the amended claim at concrete inputs: an empty-ish
ping input reports `uuid` missing, and adding an `extra` entry leaves
`make_message` unchanged. -/
theorem closed_field_set_witness :
    (∃ errs, make_message pingKlass [("message", PyVal.str "ping")] =
        .error (.validationFailed errs) ∧
        ("uuid", FieldError.missingField) ∈ errs) ∧
    make_message pingKlass [("uuid", PyVal.str "abc123"),
        ("node", PyVal.str node64), ("version", PyVal.str "1.0"),
        ("extra", PyVal.int 0)] =
      make_message pingKlass [("uuid", PyVal.str "abc123"),
        ("node", PyVal.str node64), ("version", PyVal.str "1.0")] :=
  ⟨closed_field_set_amended.1 pingKlass _ "uuid" (by simp [pingKlass]) rfl,
   closed_field_set_amended.2 pingKlass _ _ (by
     intro f hf
     simp only [pingKlass, List.mem_cons, List.not_mem_nil, or_false] at hf
     rcases hf with rfl | rfl | rfl <;> rfl)⟩

/-- C6 — Encode output shape: the encoding of any message is a single
map whose entries are exactly the declared fields in order, each name
mapped to its (packed) value, plus one final `message` entry holding
the lower-cased class name; multi-word class names are concatenated
(`findnode`, `findvalue`).  `to_msgpack` is total, so encoding never
fails on a well-formed value. -/
theorem to_msgpack_shape :
    (∀ m : Message, to_msgpack m =
      .map ((m._asdict.map fun p => (p.1, pack p.2)) ++
        [("message", .str (pyLower m.className))])) ∧
    pyLower "FindNode" = "findnode" ∧ pyLower "FindValue" = "findvalue" := by
  refine ⟨?_, rfl, rfl⟩
  intro m
  cases m <;> rfl

/-- C7 — Determinism of encoding: `to_msgpack` is a pure function of
the message value, so the same logical message (same variant, same
field values) always encodes to the same wire output. -/
theorem to_msgpack_deterministic (m₁ m₂ : Message) (h : m₁ = m₂) :
    to_msgpack m₁ = to_msgpack m₂ :=
  congrArg to_msgpack h

/-- C7 (witness) — determinism at a concrete ping. -/
theorem to_msgpack_deterministic_witness :
    to_msgpack (.ping (.str "abc123") (.str node64) (.str "1.0")) =
      to_msgpack (.ping (.str "abc123") (.str node64) (.str "1.0")) :=
  to_msgpack_deterministic _ _ rfl

/-- C8 — Concrete ping scenario: decoding
`{message: 'ping', uuid: 'abc123', node: <64-byte id>, version: '1.0'}`
yields exactly that `Ping`; with `node` shortened to 8 bytes it fails
with `ValidationFailed {node: InvalidValue}` and nothing else. -/
theorem ping_scenario :
    from_msgpack (some (.map [("message", .str "ping"), ("uuid", .str "abc123"),
      ("node", .str node64), ("version", .str "1.0")])) =
      Except.ok (.ping (.str "abc123") (.str node64) (.str "1.0")) ∧
    from_msgpack (some (.map [("message", .str "ping"), ("uuid", .str "abc123"),
      ("node", .str node8), ("version", .str "1.0")])) =
      .error (.validationFailed [("node", .invalidValue)]) :=
  ⟨rfl, rfl⟩

/-- C9 — Tag matching is exact and case-sensitive: `'Ping'` and
`'PING'` are unknown message types even with otherwise valid fields. -/
theorem tag_case_sensitive :
    from_msgpack (some (.map [("message", .str "Ping"), ("uuid", .str "abc123"),
      ("node", .str node64), ("version", .str "1.0")])) =
      .error (.unknownMessageType (.str "Ping")) ∧
    from_msgpack (some (.map [("message", .str "PING"), ("uuid", .str "abc123"),
      ("node", .str node64), ("version", .str "1.0")])) =
      .error (.unknownMessageType (.str "PING")) :=
  ⟨rfl, rfl⟩

/-- C10 — Constructed-message invariant: `make_message` returns a
constructed value only when the error dict is empty — every declared
field present and accepted by its validator — and the value is the
class constructor applied to the input map's values for the declared
field names, in declared field order. -/
theorem make_message_ok_inv (klass : Klass) (data : List (String × PyVal))
    (m : Message) (h : make_message klass data = Except.ok m) :
    (make_args klass.fields data).2 = [] ∧
    (∀ f ∈ klass.fields, ∃ v, lookupDict f data = some v ∧ VALIDATORS f v = true) ∧
    klass.ctor (klass.fields.filterMap fun f => lookupDict f data) = some m := by
  by_cases he : (make_args klass.fields data).2 = []
  · obtain ⟨hargs, hall⟩ := make_args_fst_of_errs_nil klass.fields data he
    simp only [make_message, if_pos he] at h
    rw [hargs] at h
    refine ⟨he, hall, ?_⟩
    cases hc : klass.ctor (klass.fields.filterMap fun f => lookupDict f data) with
    | none => rw [hc] at h; exact Except.noConfusion h
    | some m' =>
        rw [hc] at h
        have hm : m' = m := by injection h
        rw [hm]
  · simp only [make_message, if_neg he] at h
    exact Except.noConfusion h

/-- C10 (witness) — the invariant at a concrete successful decode. -/
theorem make_message_ok_inv_witness :
    (make_args pingKlass.fields [("uuid", PyVal.str "abc123"),
        ("node", PyVal.str node64), ("version", PyVal.str "1.0"),
        ("message", PyVal.str "ping")]).2 = [] ∧
    (∀ f ∈ pingKlass.fields, ∃ v,
        lookupDict f [("uuid", PyVal.str "abc123"), ("node", PyVal.str node64),
          ("version", PyVal.str "1.0"), ("message", PyVal.str "ping")] = some v ∧
        VALIDATORS f v = true) ∧
    pingKlass.ctor (pingKlass.fields.filterMap fun f =>
        lookupDict f [("uuid", PyVal.str "abc123"), ("node", PyVal.str node64),
          ("version", PyVal.str "1.0"), ("message", PyVal.str "ping")]) =
      some (.ping (.str "abc123") (.str node64) (.str "1.0")) :=
  make_message_ok_inv pingKlass _ _ rfl
